import Mathlib

/-!
Verification development for the RSEQ calendar scraping pipeline
(src/example/script.py).  The Python source is shallowly embedded as
executable Lean definitions; machine-level concerns (HTML parsing,
Selenium, MQTT transport, pytz timezone tables) are modelled at the data
level: a page is a list of tables of cell strings, an instant is a
naive calendar timestamp and localization attaches the fixed zone name.
-/

/-! ### Character and list utilities (ASCII models of the Python string ops) -/

/-- ASCII decimal digit test, via code points (models regexp \d on ASCII input). -/
def isDigitB (c : Char) : Bool := decide (48 ≤ c.toNat ∧ c.toNat ≤ 57)

/-- Numeric value of an ASCII digit. -/
def digitVal (c : Char) : Nat := c.toNat - 48

/-- ASCII whitespace, as stripped by Python str.strip() on ASCII text. -/
def isSpaceB (c : Char) : Bool :=
  decide (c.toNat = 32 ∨ c.toNat = 9 ∨ c.toNat = 10 ∨ c.toNat = 11 ∨ c.toNat = 12 ∨ c.toNat = 13)

/-- Python str.strip() on a character list (ASCII whitespace both ends). -/
def trimAscii (l : List Char) : List Char :=
  ((l.dropWhile isSpaceB).reverse.dropWhile isSpaceB).reverse

/-- Python str.lower() restricted to ASCII letters (the only case the claims exercise). -/
def asciiLower (c : Char) : Char :=
  if 65 ≤ c.toNat ∧ c.toNat ≤ 90 then Char.ofNat (c.toNat + 32) else c

/-- Lowercase a string character-wise (models str.lower() on ASCII text). -/
def lowerStr (s : String) : String := String.mk (s.data.map asciiLower)

/-- Python substring test needle in haystack, on character lists. -/
def containsSub (nd : List Char) : List Char → Bool
  | [] => nd.isEmpty
  | c :: t => nd.isPrefixOf (c :: t) || containsSub nd t

/-- Python substring test on strings: sub occurs somewhere in s. -/
def strContains (s sub : String) : Bool := containsSub sub.data s.data

/-- First element of l on which f succeeds (Python-style first-match loop). -/
def firstSome (f : α → Option β) : List α → Option β
  | [] => none
  | a :: t => match f a with
    | some b => some b
    | none => firstSome f t

/-! ### DateTime data model

A parsed instant, as produced by datetime.strptime: a naive calendar
timestamp.  Localization to the fixed zone America/Toronto attaches the
zone name without changing the fields (pytz localize of a naive value). -/

structure DateTime where
  year : Nat
  month : Nat
  day : Nat
  hour : Nat
  minute : Nat
  second : Nat
deriving DecidableEq, Repr

/-- The fixed target time zone of the script. -/
def LOCAL_TZ : String := "America/Toronto"

/-- A zone-localized instant (to_local_iso output): the naive fields plus the zone. -/
structure ZonedDateTime where
  dt : DateTime
  zone : String
deriving DecidableEq, Repr

/-- Model of to_local_iso on a parsed naive value: pytz localize assigns the
fixed zone without altering the calendar fields. -/
def to_local (dt : DateTime) : ZonedDateTime := ⟨dt, LOCAL_TZ⟩

/-! ### strptime engine for the seven formats of parse_datetime_candidates

CPython strptime compiles each directive to a regular expression and
requires the whole string to match:
  %Y = exactly four digits;
  %m = 1[0-2] or 0[1-9] or [1-9];
  %d = 3[01] or [12]\d or 0[1-9] or [1-9] or space[1-9];
  %H = 2[0-3] or [0-1]\d or \d;  %M = [0-5]\d or \d;  %S = 6[0-1] or [0-5]\d or \d.
Alternatives are tried left to right with backtracking; afterwards the
datetime constructor validates the calendar date (and rejects seconds 60/61). -/

inductive Tok where
  | lit : Char → Tok
  | Y | m2 | d2 | H | M | S

/-- Candidate two-digit match for a numeric directive (first regex alternative block). -/
def cand2 (ok : Nat → Bool) : List Char → List (Nat × List Char)
  | a :: b :: rest =>
    if isDigitB a && isDigitB b && ok (digitVal a * 10 + digitVal b) then
      [(digitVal a * 10 + digitVal b, rest)]
    else []
  | _ => []

/-- Candidate one-digit match for a numeric directive. -/
def cand1 (ok : Nat → Bool) : List Char → List (Nat × List Char)
  | a :: rest => if isDigitB a && ok (digitVal a) then [(digitVal a, rest)] else []
  | [] => []

/-- Candidate space-then-digit match (the final %d alternative, space[1-9]). -/
def candSpaceDigit : List Char → List (Nat × List Char)
  | ' ' :: a :: rest => if isDigitB a && decide (1 ≤ digitVal a) then [(digitVal a, rest)] else []
  | _ => []

/-- Exact four-digit match for %Y. -/
def candY : List Char → List (Nat × List Char)
  | a :: b :: c :: d :: rest =>
    if isDigitB a && isDigitB b && isDigitB c && isDigitB d then
      [(digitVal a * 1000 + digitVal b * 100 + digitVal c * 10 + digitVal d, rest)]
    else []
  | _ => []

/-- The ordered candidate list of one directive, mirroring the regex alternation order. -/
def fieldCands : Tok → List Char → List (Nat × List Char)
  | .lit ch, cs => match cs with
    | c :: rest => if c = ch then [(0, rest)] else []
    | [] => []
  | .Y, cs => candY cs
  | .m2, cs =>
    cand2 (fun n => (decide (10 ≤ n) && decide (n ≤ 12)) || (decide (1 ≤ n) && decide (n ≤ 9))) cs
      ++ cand1 (fun n => decide (1 ≤ n)) cs
  | .d2, cs =>
    cand2 (fun n => decide (1 ≤ n) && decide (n ≤ 31)) cs
      ++ cand1 (fun n => decide (1 ≤ n)) cs ++ candSpaceDigit cs
  | .H, cs => cand2 (fun n => decide (n ≤ 23)) cs ++ cand1 (fun _ => true) cs
  | .M, cs => cand2 (fun n => decide (n ≤ 59)) cs ++ cand1 (fun _ => true) cs
  | .S, cs => cand2 (fun n => decide (n ≤ 61)) cs ++ cand1 (fun _ => true) cs

/-- Match a directive list against the whole string with regex-style backtracking,
returning the numeric captures in order.  The full input must be consumed
(strptime raises when data remains). -/
def matchToks : List Tok → List Char → Option (List Nat)
  | [], cs => if cs.isEmpty then some [] else none
  | .lit ch :: ts, cs => match cs with
    | c :: rest => if c = ch then matchToks ts rest else none
    | [] => none
  | t :: ts, cs =>
    firstSome (fun vr => (matchToks ts vr.2).map (fun vs => vr.1 :: vs)) (fieldCands t cs)

/-- Leap year rule of the proleptic Gregorian calendar (Python calendar.isleap). -/
def isLeap (y : Nat) : Bool := (y % 4 = 0 && y % 100 ≠ 0) || y % 400 = 0

/-- Days in a month, as enforced by the datetime constructor. -/
def days_in_month (y m : Nat) : Nat :=
  if m = 2 then (if isLeap y then 29 else 28)
  else if m = 4 ∨ m = 6 ∨ m = 9 ∨ m = 11 then 30
  else 31

/-- The datetime constructor: validates ranges (year 1..9999, real calendar day,
second at most 59 even though the regex admits 60 and 61). -/
def datetime_valid (y m d hh mm ss : Nat) : Option DateTime :=
  if 1 ≤ y ∧ y ≤ 9999 ∧ 1 ≤ m ∧ m ≤ 12 ∧ 1 ≤ d ∧ d ≤ days_in_month y m
      ∧ hh ≤ 23 ∧ mm ≤ 59 ∧ ss ≤ 59 then
    some ⟨y, m, d, hh, mm, ss⟩
  else none

def mk_ymd_hm : List Nat → Option DateTime
  | [y, m, d, hh, mm] => datetime_valid y m d hh mm 0
  | _ => none

def mk_ymd : List Nat → Option DateTime
  | [y, m, d] => datetime_valid y m d 0 0 0
  | _ => none

def mk_dmy_hm : List Nat → Option DateTime
  | [d, m, y, hh, mm] => datetime_valid y m d hh mm 0
  | _ => none

def mk_dmy : List Nat → Option DateTime
  | [d, m, y] => datetime_valid y m d 0 0 0
  | _ => none

def mk_ymd_hms : List Nat → Option DateTime
  | [y, m, d, hh, mm, ss] => datetime_valid y m d hh mm ss
  | _ => none

/-- The fixed ordered format list of parse_datetime_candidates. -/
def fmts : List (List Tok × (List Nat → Option DateTime)) :=
  [ ([.Y, .lit '-', .m2, .lit '-', .d2, .lit ' ', .H, .lit ':', .M], mk_ymd_hm),
    ([.Y, .lit '-', .m2, .lit '-', .d2], mk_ymd),
    ([.d2, .lit '-', .m2, .lit '-', .Y, .lit ' ', .H, .lit ':', .M], mk_dmy_hm),
    ([.d2, .lit '-', .m2, .lit '-', .Y], mk_dmy),
    ([.d2, .lit '/', .m2, .lit '/', .Y, .lit ' ', .H, .lit ':', .M], mk_dmy_hm),
    ([.d2, .lit '/', .m2, .lit '/', .Y], mk_dmy),
    ([.Y, .lit '-', .m2, .lit '-', .d2, .lit ' ', .H, .lit ':', .M, .lit ':', .S], mk_ymd_hms) ]

/-- Python re.fullmatch of \d{1,2} (the bare-hour test of parse_datetime_candidates). -/
def isOneOrTwoDigits : List Char → Bool
  | [a] => isDigitB a
  | [a, b] => isDigitB a && isDigitB b
  | _ => false

/-- parse_datetime_candidates(date_str, time_str): strip both inputs, turn every
h or H of the time into a colon, expand a bare 1-2 digit time to hour:00,
join with a space when a time remains, then try the format list in order.
Total and Option-valued: a failed format never escapes (ValueError is caught). -/
def parse_datetime_candidates (date_str time_str : String) : Option DateTime :=
  let ds := trimAscii date_str.data
  let ts0 := (trimAscii time_str.data).map (fun c => if c = 'h' ∨ c = 'H' then ':' else c)
  let ts := if isOneOrTwoDigits ts0 then ts0 ++ [':', '0', '0'] else ts0
  let dt_text := if ts.isEmpty then ds else trimAscii (ds ++ [' '] ++ ts)
  firstSome (fun fm => (matchToks fm.1 dt_text).bind fm.2) fmts

/-- The call-site composition at line 195 of the script: on failure of the
timed parse, retry date-only (Python: parse(...) or parse(date, "")). -/
def row_datetime (date_str time_str : String) : Option DateTime :=
  match parse_datetime_candidates date_str time_str with
  | some dt => some dt
  | none => parse_datetime_candidates date_str ""


/-! ### slugify

Python: NFKD-normalize, drop non-ASCII, collapse every run of
non-alphanumerics to one underscore, strip edge underscores, lowercase,
fall back to "rseq" when empty.  NFKD decomposition followed by
ascii-ignore is modelled as dropping non-ASCII code points; this may keep
fewer letters than Python for accented input but the well-formedness
properties proved about the output are insensitive to which ASCII letters
survive the first stage. -/

/-- ASCII alphanumeric, the character class kept by re.sub(r"[^a-zA-Z0-9]+", "_", value). -/
def isAlnumB (c : Char) : Bool :=
  decide ((97 ≤ c.toNat ∧ c.toNat ≤ 122) ∨ (65 ≤ c.toNat ∧ c.toNat ≤ 90)
    ∨ (48 ≤ c.toNat ∧ c.toNat ≤ 57))

/-- Model of NFKD + encode("ascii","ignore"): keep ASCII code points. -/
def asciiOnly (l : List Char) : List Char := l.filter (fun c => decide (c.toNat ≤ 127))

/-- Collapse maximal runs of non-alphanumerics to a single underscore
(re.sub(r"[^a-zA-Z0-9]+", "_", value) as a left-to-right state machine;
the flag records that the current run already emitted its underscore). -/
def collapseRuns : Bool → List Char → List Char
  | _, [] => []
  | inRun, c :: rest =>
    if isAlnumB c then c :: collapseRuns false rest
    else if inRun then collapseRuns true rest
    else '_' :: collapseRuns true rest

/-- Underscore test for str.strip("_"). -/
def isUnderB (c : Char) : Bool := decide (c.toNat = 95)

/-- str.strip("_"): remove leading and trailing underscores. -/
def stripUnder (l : List Char) : List Char :=
  ((l.dropWhile isUnderB).reverse.dropWhile isUnderB).reverse

/-- The sub-strip-lower pipeline of slugify before the fallback. -/
def slugify_core (name : String) : String :=
  String.mk ((stripUnder (collapseRuns false (asciiOnly name.data))).map asciiLower)

/-- slugify(name): the cleaned value, or "rseq" when it reduces to nothing. -/
def slugify (name : String) : String :=
  if slugify_core name = "" then "rseq" else slugify_core name


/-! ### Page and table model

The rendered markup is abstracted to its table structure: a page is an
ordered list of tables; a table has an element id, the flattened header
cell texts (thead tr th) and the body rows (tbody tr), each row the
ordered list of its whitespace-trimmed cell texts (td get_text(strip=True)).
soup.find("table", id) returns the first table with that id. -/

structure HTable where
  tid : String
  headerCells : List String
  bodyRows : List (List String)
deriving DecidableEq, Repr

structure Page where
  tables : List HTable
deriving DecidableEq, Repr

/-- soup.find("table", id): first table carrying the id, if any. -/
def findTable (p : Page) (tid : String) : Option HTable :=
  p.tables.find? (fun t => t.tid == tid)

/-! ### Calendar extraction (extract_calendar_rows) -/

structure CalRow where
  no : String
  jour : String
  date : String
  time : String
  datetime : Option DateTime
  visitor : String
  result : String
  home : String
  venue : String
deriving DecidableEq, Repr

/-- Map one body row of #CalendarTable: rows with fewer than 9 cells are
dropped; the venue sits at index 9 when a map-link cell is present
(10 or more cells), else at index 8; date and time go through the
normalizer with a date-only retry. -/
def mapCalRow (tds : List String) : Option CalRow :=
  if tds.length < 9 then none
  else
    some
      { no := tds.getD 1 ""
        jour := tds.getD 2 ""
        date := tds.getD 3 ""
        time := tds.getD 4 ""
        datetime := row_datetime (tds.getD 3 "") (tds.getD 4 "")
        visitor := tds.getD 5 ""
        result := tds.getD 6 ""
        home := tds.getD 7 ""
        venue := if 10 ≤ tds.length then tds.getD 9 "" else tds.getD 8 "" }

/-- extract_calendar_rows: raises (Except.error) when #CalendarTable is absent,
otherwise maps every body row, silently dropping short rows. -/
def extract_calendar_rows (p : Page) : Except String (List CalRow) :=
  match findTable p "CalendarTable" with
  | none => Except.error "Table #CalendarTable non trouvée"
  | some t => Except.ok (t.bodyRows.filterMap mapCalRow)

/-! ### Standings extraction (extract_standings_rows) -/

structure StandRow where
  pos : Option String
  team : Option String
  MJ : Option String
  V : Option String
  D : Option String
  N : Option String
  PP : Option String
  PC : Option String
  MOY : Option String
  PES : Option String
  PTS : Option String
deriving DecidableEq, Repr

/-- find_idx: index of the first header whose lowercased text contains one of
the accepted substrings. -/
def find_idx (headers : List String) (names : List String) : Option Nat :=
  headers.findIdx? (fun h => names.any (fun n => strContains (lowerStr h) n))

/-- The detected column indices for the eleven semantic fields. -/
structure StandIdx where
  pos : Option Nat
  team : Option Nat
  mj : Option Nat
  v : Option Nat
  d : Option Nat
  n : Option Nat
  pp : Option Nat
  pc : Option Nat
  moy : Option Nat
  pes : Option Nat
  pts : Option Nat
deriving DecidableEq, Repr

/-- Header-driven column detection with the accepted substrings of the script
(the space before v, d and n avoids matching inside words such as visiteur). -/
def computeIdx (headers : List String) : StandIdx :=
  { pos := find_idx headers ["pos"]
    team := find_idx headers ["équipe", "equipe", "team"]
    mj := find_idx headers ["mj"]
    v := find_idx headers [" v", "wins"]
    d := find_idx headers [" d", "losses"]
    n := find_idx headers [" n", "draws"]
    pp := find_idx headers ["pp", "points for"]
    pc := find_idx headers ["pc", "points againts", "points against", "points againsts"]
    moy := find_idx headers ["moy"]
    pes := find_idx headers ["pts eth", "pes"]
    pts := find_idx headers ["pts tot", "pts", "total points"] }

/-- The local helper at(i) of extract_standings_rows: tds[i] if the index was
detected and is in range, else None.  Total: out-of-range access is
impossible by construction. -/
def atCell (i : Option Nat) (tds : List String) : Option String :=
  match i with
  | none => none
  | some j => if h : j < tds.length then some (tds.get ⟨j, h⟩) else none

/-- Build one standings entry from a body row via the detected indices. -/
def mkEntry (ix : StandIdx) (tds : List String) : StandRow :=
  { pos := atCell ix.pos tds
    team := atCell ix.team tds
    MJ := atCell ix.mj tds
    V := atCell ix.v tds
    D := atCell ix.d tds
    N := atCell ix.n tds
    PP := atCell ix.pp tds
    PC := atCell ix.pc tds
    MOY := atCell ix.moy tds
    PES := atCell ix.pes tds
    PTS := atCell ix.pts tds }

/-- Python truthiness filter: kept iff pos and team are present and non-empty. -/
def keptB (e : StandRow) : Bool :=
  (match e.pos with | some s => decide (s ≠ "") | none => false)
    && (match e.team with | some s => decide (s ≠ "") | none => false)

/-- Python int(s) on a cell text: optional surrounding whitespace, optional
sign, then digits possibly grouped by single interior underscores. -/
def digitsVal : Nat → List Char → Option Nat
  | acc, [] => some acc
  | acc, '_' :: c :: t => if isDigitB c then digitsVal (acc * 10 + digitVal c) t else none
  | _, ['_'] => none
  | acc, c :: t => if isDigitB c then digitsVal (acc * 10 + digitVal c) t else none

/-- Nonempty digit group parse (first char must be a digit). -/
def digitsFirst : List Char → Option Nat
  | [] => none
  | c :: t => if isDigitB c then digitsVal (digitVal c) t else none

/-- Python int() on a string, as Option. -/
def py_int (s : String) : Option Int :=
  match trimAscii s.data with
  | '+' :: t => (digitsFirst t).map Int.ofNat
  | '-' :: t => (digitsFirst t).map (fun n => -(Int.ofNat n))
  | t => (digitsFirst t).map Int.ofNat

/-- The integer-parsed position of an entry, when its pos text parses. -/
def pos_int (e : StandRow) : Option Int :=
  match e.pos with
  | none => none
  | some s => py_int s

/-- pos_key of the script: the parsed position, or the sentinel 999999 when
the pos text (or its very presence) fails int(). -/
def pos_key (e : StandRow) : Int :=
  match pos_int e with
  | some n => n
  | none => 999999

/-- An entry whose position does not parse as an integer. -/
def unpB (e : StandRow) : Bool := (pos_int e).isNone

/-- Sort relation of rows.sort(key=pos_key). -/
def stand_le (a b : StandRow) : Prop := pos_key a ≤ pos_key b

instance : DecidableRel stand_le := fun a b => Int.decLe (pos_key a) (pos_key b)

instance : IsTotal StandRow stand_le := ⟨fun a b => Int.le_total (pos_key a) (pos_key b)⟩

instance : IsTrans StandRow stand_le := ⟨fun _ _ _ => Int.le_trans⟩

/-- The kept entries of #standingsTable in body order, before sorting. -/
def rawStandingsEntries (p : Page) : List StandRow :=
  match findTable p "standingsTable" with
  | none => []
  | some t =>
    ((t.bodyRows.filter (fun r => !r.isEmpty)).map
        (mkEntry (computeIdx t.headerCells))).filter keptB

/-- extract_standings_rows: missing table yields the empty list (no error);
otherwise the kept entries sorted by pos_key with Python list.sort, a
stable sort modelled by insertion sort. -/
def extract_standings_rows (p : Page) : List StandRow :=
  match findTable p "standingsTable" with
  | none => []
  | some _ => List.insertionSort stand_le (rawStandingsEntries p)


/-! ### Fact derivation (find_next_and_upcoming)

The script stores each instant as a zero-padded local ISO string and sorts
the retained rows by that string; at the fixed zone offset the
lexicographic order of those strings is the chronological order of the
instants, modelled here by the injective mixed-radix key below.
Rows without an instant are excluded before sorting; the comparison with
now is inclusive (dt >= now). -/

/-- Mixed-radix encoding of a timestamp; monotone in the lexicographic field
order, so it realizes both the instant order and the ISO-string sort key. -/
def dt_key (dt : DateTime) : Nat :=
  ((((dt.year * 13 + dt.month) * 32 + dt.day) * 24 + dt.hour) * 60 + dt.minute) * 60 + dt.second

/-- Sort key of a retained calendar row (its instant; retained rows always have one). -/
def cal_key (r : CalRow) : Nat :=
  match r.datetime with
  | some dt => dt_key dt
  | none => 0

/-- Sort relation of future.sort(key=datetime string). -/
def cal_le (a b : CalRow) : Prop := cal_key a ≤ cal_key b

instance : DecidableRel cal_le := fun a b => Nat.decLe (cal_key a) (cal_key b)

instance : IsTotal CalRow cal_le := ⟨fun a b => Nat.le_total (cal_key a) (cal_key b)⟩

instance : IsTrans CalRow cal_le := ⟨fun _ _ _ => Nat.le_trans⟩

/-- The filter of the loop: a non-null instant at or after now. -/
def keepFuture (now : DateTime) (r : CalRow) : Bool :=
  match r.datetime with
  | some dt => decide (dt_key now ≤ dt_key dt)
  | none => false

/-- find_next_and_upcoming: keep rows with an instant at or after now, sort
ascending (stable), return the head as next and the first five as upcoming. -/
def find_next_and_upcoming (rows : List CalRow) (now : DateTime) :
    Option CalRow × List CalRow :=
  let future := List.insertionSort cal_le (rows.filter (keepFuture now))
  (future.head?, future.take 5)

/-! ### Dedup store and the gated event-creation action (main, lines 464-488)

The persisted snapshot is a mapping slug to last dedup key.  Inside the
guard (a next game exists and the HA collaborators are configured) the
script computes ng_key = slug ++ ":" ++ instant, calls the event-creation
action only when the stored key differs, and only after the action returns
without error stores the new key and saves the snapshot immediately.
An action failure is caught: the mapping is left as it was.
actionOk models whether create_event_in_ha returns without raising. -/

abbrev Store := List (String × String)

/-- dict.get(slug): first binding of the slug, if any. -/
def store_get : Store → String → Option String
  | [], _ => none
  | (k, v) :: t, s => if k = s then some v else store_get t s

/-- dict assignment last[slug] = key. -/
def store_set : Store → String → String → Store
  | [], k, v => [(k, v)]
  | (a, b) :: t, k, v => if a = k then (k, v) :: t else (a, b) :: store_set t k v

/-- Outcome of one pass through the gate: whether the action was called, the
mapping afterwards, and how many snapshot saves happened. -/
structure GateOut where
  called : Bool
  store : Store
  flushes : Nat
deriving DecidableEq, Repr

/-- The dedup key for a target: slug ++ ":" ++ the stored instant text. -/
def ng_key_of (slug inst : String) : String := slug ++ ":" ++ inst

/-- One pass through the gated action for one slug. -/
def run_gate (last : Store) (slug key : String) (actionOk : Bool) : GateOut :=
  if store_get last slug ≠ some key then
    if actionOk then ⟨true, store_set last slug key, 1⟩
    else ⟨true, last, 0⟩
  else ⟨false, last, 0⟩


/-! ### Publications and the per-target loop (main)

Each processed target publishes three sensors: status, next game and
standings; their retained attribute payloads are elided, the discovery
identifier and the state scalar are kept.  A team entry without a URL is
skipped with a warning and publishes nothing.  All of fetch, extraction,
mapping and derivation run inside the per-target try block: a raised error
becomes the status text and the loop continues with the next team. -/

inductive PubKind where
  | status | next_game | standings
deriving DecidableEq, Repr

structure Pub where
  kind : PubKind
  sensor_id : String
  state : String
deriving DecidableEq, Repr

structure Team where
  name : String
  url : String
deriving DecidableEq, Repr

/-- State string of the next-game sensor. -/
def next_state (ng : Option CalRow) : String :=
  match ng with
  | some g => g.date ++ " " ++ g.time ++ " – " ++ g.visitor ++ " @ " ++ g.home
  | none => "Aucun match à venir"

/-- fmt_team_row: position, team and points of one standings row.  dict.get
with a default returns the stored None when the key exists, rendered None
by the f-string; kept rows always carry non-empty pos and team. -/
def fmt_team_row (r : StandRow) : String :=
  let pts :=
    match r.PTS with
    | some s => if s = "" then (match r.PES with
        | some s2 => if s2 = "" then "-" else s2
        | none => "-")
      else s
    | none =>
      match r.PES with
      | some s2 => if s2 = "" then "-" else s2
      | none => "-"
  (match r.pos with | some s => s | none => "None") ++ ") "
    ++ (match r.team with | some s => s | none => "None") ++ " (" ++ pts ++ " pts)"

/-- State string of the standings sensor: the top three rows, or a fallback. -/
def standings_state (st : List StandRow) : String :=
  match st with
  | [] => "Classement indisponible"
  | _ =>
    let top := String.intercalate " | " ((st.take 3).map fmt_team_row)
    if top = "" then "Classement disponible" else top

/-- The three sensor publications of one processed team. -/
def mkPubs (pfx slug status : String) (ng : Option CalRow) (st : List StandRow) : List Pub :=
  [ ⟨.status, pfx ++ "_" ++ slug ++ "_status", status⟩,
    ⟨.next_game, pfx ++ "_" ++ slug ++ "_next_game", next_state ng⟩,
    ⟨.standings, pfx ++ "_" ++ slug ++ "_standings", standings_state st⟩ ]

/-- The effective display name: team.get("name") or "default". -/
def team_name (t : Team) : String := if t.name = "" then "default" else t.name

/-- One iteration of the per-team loop.  The oracle stands for
scrape_team_calendar: either the extracted calendar and standings rows,
or the text of the exception it raised.  A missing URL publishes nothing;
a raised error becomes the status text with empty facts; an empty
calendar is reported as error: calendrier vide. -/
def processTeam (pfx : String) (now : DateTime)
    (oracle : String → Except String (List CalRow × List StandRow)) (t : Team) : List Pub :=
  if t.url = "" then []
  else
    match oracle t.url with
    | Except.error e => mkPubs pfx (slugify (team_name t)) ("error: " ++ e) none []
    | Except.ok (rows, st) =>
      mkPubs pfx (slugify (team_name t))
        (if rows.isEmpty then "error: calendrier vide" else "success")
        (find_next_and_upcoming rows now).1 st

/-- The whole run over the configured team sequence. -/
def processTeams (pfx : String) (now : DateTime)
    (oracle : String → Except String (List CalRow × List StandRow)) : List Team → List Pub
  | [] => []
  | t :: ts => processTeam pfx now oracle t ++ processTeams pfx now oracle ts

/-! ### Character class of well-formed slugs, and concrete sample inputs -/

/-- Lowercase ASCII letter, digit or underscore: the claimed output alphabet of slugify. -/
def isLowerSlugB (c : Char) : Bool :=
  decide ((97 ≤ c.toNat ∧ c.toNat ≤ 122) ∨ (48 ≤ c.toNat ∧ c.toNat ≤ 57) ∨ c.toNat = 95)

/-- A reference instant for concrete evaluations: 2024-10-05 12:00 local. -/
def now0 : DateTime := ⟨2024, 10, 5, 12, 0, 0⟩

/-- Calendar row one day before now0 (2024-10-04 19:30). -/
def rowPast : CalRow :=
  ⟨"1", "Ven", "2024-10-04", "19:30", some ⟨2024, 10, 4, 19, 30, 0⟩, "V1", "", "H1", "A1"⟩

/-- Calendar row two days after now0 (2024-10-07 19:30). -/
def rowPlus2 : CalRow :=
  ⟨"2", "Lun", "2024-10-07", "19:30", some ⟨2024, 10, 7, 19, 30, 0⟩, "V2", "", "H2", "A2"⟩

/-- Calendar row five days after now0 (2024-10-10 19:30). -/
def rowPlus5 : CalRow :=
  ⟨"3", "Jeu", "2024-10-10", "19:30", some ⟨2024, 10, 10, 19, 30, 0⟩, "V3", "", "H3", "A3"⟩

/-- Standings entry with unparsable position x (team C). -/
def entUnpC : StandRow :=
  ⟨some "x", some "C", none, none, none, none, none, none, none, none, none⟩

/-- Standings entry whose valid position equals the sentinel 999999 (team A). -/
def entSentA : StandRow :=
  ⟨some "999999", some "A", none, none, none, none, none, none, none, none, none⟩

/-- Standings page on which the sentinel collides: an unparsable row precedes a
valid row of position 999999, so stable sorting keeps the unparsable row first. -/
def c4cxPage : Page :=
  ⟨[⟨"standingsTable", ["Pos", "Team"], [["x", "C"], ["999999", "A"]]⟩]⟩

/-- Standings page for the amended ordering statement: one valid position and
two unparsable ones. -/
def c4wPage : Page :=
  ⟨[⟨"standingsTable", ["Pos", "Team"], [["1", "A"], ["x", "C"], ["y", "D"]]⟩]⟩

/-- A ten-cell calendar body row (with the optional map-link cell). -/
def cells10 : List String :=
  ["", "1", "Sam", "2024-10-05", "19:30", "Visiteurs", "", "Locaux", "carte", "Arena"]

/-- A calendar table of twenty identical body rows: above the ceiling the spec
describes, yet fully processed by the code. -/
def page20 : Page := ⟨[⟨"CalendarTable", [], List.replicate 20 cells10⟩]⟩

/-- The mapped record of cells10. -/
def row20 : CalRow :=
  ⟨"1", "Sam", "2024-10-05", "19:30", some ⟨2024, 10, 5, 19, 30, 0⟩,
    "Visiteurs", "", "Locaux", "Arena"⟩

/-- Calendar table holding a short row plus a well-formed one. -/
def c5wCal : HTable := ⟨"CalendarTable", [], [["a", "b", "c"], cells10]⟩

/-- One-row standings table. -/
def c5wStand : HTable := ⟨"standingsTable", ["Pos", "Team"], [["1", "A"]]⟩

/-- Page holding both tables above. -/
def c5wPage : Page := ⟨[c5wCal, c5wStand]⟩

/-- Page holding only an unrelated table. -/
def pageOther : Page := ⟨[⟨"other", [], []⟩]⟩

/-- Page with no tables at all. -/
def pageEmpty : Page := ⟨[]⟩

/-- A fetch collaborator that always raises. -/
def failOracle : String → Except String (List CalRow × List StandRow) :=
  fun _ => Except.error "boom"

/-- A configured team entry lacking its URL. -/
def noUrlTeam : Team := ⟨"x", ""⟩

/-! ## Helper lemmas -/

theorem store_get_set_self (s : Store) (k v : String) :
    store_get (store_set s k v) k = some v := by
  induction s with
  | nil => simp [store_set, store_get]
  | cons a t ih =>
    obtain ⟨a1, a2⟩ := a
    by_cases h : a1 = k
    · simp [store_set, h, store_get]
    · simp [store_set, h, store_get, ih]

theorem length_filterMap_mapCalRow (l : List (List String)) :
    (l.filterMap mapCalRow).length = (l.filter (fun r => decide (9 ≤ r.length))).length := by
  induction l with
  | nil => rfl
  | cons r t ih =>
    by_cases h : r.length < 9
    · have h9 : ¬ 9 ≤ r.length := by omega
      simp [List.filterMap_cons, List.filter_cons, mapCalRow, h, h9, ih]
    · have h9 : 9 ≤ r.length := by omega
      simp [List.filterMap_cons, List.filter_cons, mapCalRow, h, h9, ih]

theorem filter_status_mkPubs (pfx slug s : String) (ng : Option CalRow) (st : List StandRow) :
    (mkPubs pfx slug s ng st).filter (fun q => decide (q.kind = PubKind.status))
      = [⟨PubKind.status, pfx ++ "_" ++ slug ++ "_status", s⟩] := rfl

theorem processTeams_append (pfx : String) (now : DateTime)
    (oracle : String → Except String (List CalRow × List StandRow)) (l1 l2 : List Team) :
    processTeams pfx now oracle (l1 ++ l2)
      = processTeams pfx now oracle l1 ++ processTeams pfx now oracle l2 := by
  induction l1 with
  | nil => rfl
  | cons t ts ih => simp [processTeams, ih]

/-! ## Claim theorems -/

/-- C1: inside the configured guard, the external event-creation action runs
if and only if the fresh dedup key differs from the stored one; a successful
action stores the key and saves the snapshot immediately, a failed action
leaves the mapping untouched so the next run retries; and a second pass with
the unchanged key after a successful first pass performs no second call. -/
theorem C1_dedup_gate : ∀ (last : Store) (slug key : String) (ok ok2 : Bool),
    ((run_gate last slug key ok).called = true ↔ store_get last slug ≠ some key)
    ∧ (ok = true → store_get last slug ≠ some key →
        (run_gate last slug key ok).store = store_set last slug key
          ∧ (run_gate last slug key ok).flushes = 1)
    ∧ (ok = false → (run_gate last slug key ok).store = last
          ∧ (run_gate last slug key ok).flushes = 0)
    ∧ (store_get last slug ≠ some key → ok = true →
        (run_gate last slug key ok).called = true
          ∧ (run_gate (run_gate last slug key ok).store slug key ok2).called = false) := by
  intro last slug key ok ok2
  by_cases hk : store_get last slug = some key <;> cases ok <;>
    simp [run_gate, hk, store_get_set_self]

/-- C1 witness: from an empty store, a successful gated pass calls the action
once, and the immediate second pass with the same key does not call it again;
a failed pass leaves the store empty. -/
theorem C1_dedup_gate_witness :
    (run_gate [] "a" "a:2024-10-05T19:30:00" true).called = true
    ∧ (run_gate (run_gate [] "a" "a:2024-10-05T19:30:00" true).store
        "a" "a:2024-10-05T19:30:00" true).called = false
    ∧ (run_gate [] "a" "a:2024-10-05T19:30:00" false).store = ([] : Store) := by
  refine ⟨?_, ?_, ?_⟩
  · exact ((C1_dedup_gate [] "a" "a:2024-10-05T19:30:00" true true).2.2.2
      (by decide) rfl).1
  · exact ((C1_dedup_gate [] "a" "a:2024-10-05T19:30:00" true true).2.2.2
      (by decide) rfl).2
  · exact ((C1_dedup_gate [] "a" "a:2024-10-05T19:30:00" false true).2.2.1 rfl).1

/-- C2: evaluation of the normalizer at the claimed inputs.  The 19h30 case
parses to local 19:30 as claimed, and localization attaches the configured
zone.  The bare-hour case 19h however yields no timed parse: the replace step
has already turned 19h into 19: so the expansion the code documents
(19h becoming 19:00) never fires, the regex seeing 19: instead of 19; the
call-site date-only retry then produces midnight instead of 19:00. -/
theorem C2_bare_hour_eval :
    parse_datetime_candidates "2024-10-05" "19h30" = some ⟨2024, 10, 5, 19, 30, 0⟩
    ∧ to_local ⟨2024, 10, 5, 19, 30, 0⟩ = ⟨⟨2024, 10, 5, 19, 30, 0⟩, "America/Toronto"⟩
    ∧ parse_datetime_candidates "2024-10-05" "19h" = none
    ∧ row_datetime "2024-10-05" "19h" = some ⟨2024, 10, 5, 0, 0, 0⟩ :=
  ⟨by decide, by decide, by decide, by decide⟩

/-- C7 (amended): a page without the calendar table makes the calendar
extractor fail with the extraction error, while a page without the standings
table makes the standings extractor return the empty list normally. -/
theorem C7_missing_table : ∀ p : Page,
    (findTable p "CalendarTable" = none →
      extract_calendar_rows p = Except.error "Table #CalendarTable non trouvée")
    ∧ (findTable p "standingsTable" = none → extract_standings_rows p = []) := by
  intro p
  constructor
  · intro h; unfold extract_calendar_rows; rw [h]
  · intro h; unfold extract_standings_rows; rw [h]

/-- C7 witness: both behaviours at a page holding only an unrelated table. -/
theorem C7_missing_table_witness :
    extract_calendar_rows pageOther = Except.error "Table #CalendarTable non trouvée"
    ∧ extract_standings_rows pageOther = [] :=
  ⟨(C7_missing_table pageOther).1 rfl, (C7_missing_table pageOther).2 rfl⟩

/-- C7 counterexample: on a page without tables the standings extractor does
not raise an extraction error, unlike the calendar extractor: it returns an
empty list as an ordinary value. -/
theorem C7_counterexample :
    extract_standings_rows pageEmpty = []
    ∧ extract_calendar_rows pageEmpty = Except.error "Table #CalendarTable non trouvée" :=
  ⟨rfl, rfl⟩

/-- C8: the composed normalizer is total and Option-valued: it is absent
exactly when the timed parse and the date-only retry both fail, and in
particular normalize("not-a-date", "") is absent. -/
theorem C8_parse_total :
    (∀ ds ts : String, row_datetime ds ts = none ↔
        parse_datetime_candidates ds ts = none ∧ parse_datetime_candidates ds "" = none)
    ∧ parse_datetime_candidates "not-a-date" "" = none
    ∧ row_datetime "not-a-date" "" = none := by
  refine ⟨?_, by decide, by decide⟩
  intro ds ts
  unfold row_datetime
  cases h : parse_datetime_candidates ds ts <;> simp [h]

/-- C5 (amended): no row-count ceiling exists: whenever the calendar table is
found, every body row with at least nine cells is mapped into the result, in
any quantity; likewise the standings result keeps every retained entry. -/
theorem C5_no_ceiling : ∀ (p : Page) (t : HTable),
    (findTable p "CalendarTable" = some t →
      extract_calendar_rows p = Except.ok (t.bodyRows.filterMap mapCalRow)
        ∧ (t.bodyRows.filterMap mapCalRow).length
            = (t.bodyRows.filter (fun r => decide (9 ≤ r.length))).length)
    ∧ (findTable p "standingsTable" = some t →
        (extract_standings_rows p).length = (rawStandingsEntries p).length) := by
  intro p t
  constructor
  · intro h
    refine ⟨?_, length_filterMap_mapCalRow _⟩
    unfold extract_calendar_rows; rw [h]
  · intro h
    unfold extract_standings_rows
    rw [h]
    exact (List.perm_insertionSort stand_le (rawStandingsEntries p)).length_eq

/-- C5 witness: on a concrete page the calendar extractor keeps exactly the
well-formed rows and the standings extractor keeps its one entry. -/
theorem C5_no_ceiling_witness :
    (extract_calendar_rows c5wPage = Except.ok (c5wCal.bodyRows.filterMap mapCalRow)
      ∧ (c5wCal.bodyRows.filterMap mapCalRow).length
          = (c5wCal.bodyRows.filter (fun r => decide (9 ≤ r.length))).length)
    ∧ (extract_standings_rows c5wPage).length = (rawStandingsEntries c5wPage).length :=
  ⟨(C5_no_ceiling c5wPage c5wCal).1 rfl, (C5_no_ceiling c5wPage c5wStand).2 rfl⟩

/-- C5 counterexample: a calendar table of twenty body rows, above the claimed
ceiling of fifteen, is not discarded: all twenty rows appear in the result. -/
theorem C5_counterexample :
    extract_calendar_rows page20 = Except.ok (List.replicate 20 row20)
    ∧ (List.replicate 20 row20).length = 20 :=
  ⟨rfl, rfl⟩

/-- C3: the fact deriver keeps exactly the rows with an instant at or after
the reference, returns them sorted ascending with the first as next and the
first five as the upcoming window; an empty filter result gives null and the
empty window; on the spec example of instants one day past, two days and
five days ahead, it returns the two-days row as next and the two future rows
as upcoming. -/
theorem C3_fact_deriver : ∀ (rows : List CalRow) (now : DateTime),
    (∃ l : List CalRow, l.Perm (rows.filter (keepFuture now))
        ∧ List.Sorted cal_le l
        ∧ find_next_and_upcoming rows now = (l.head?, l.take 5))
    ∧ (rows.filter (keepFuture now) = [] → find_next_and_upcoming rows now = (none, []))
    ∧ find_next_and_upcoming [rowPast, rowPlus2, rowPlus5] now0
        = (some rowPlus2, [rowPlus2, rowPlus5]) := by
  intro rows now
  refine ⟨⟨List.insertionSort cal_le (rows.filter (keepFuture now)),
      List.perm_insertionSort cal_le _, List.sorted_insertionSort cal_le _, rfl⟩, ?_, ?_⟩
  · intro h
    simp [find_next_and_upcoming, h, List.insertionSort]
  · decide

/-- C3 witness: with no entries at all the filter is empty and the deriver
returns null and the empty window. -/
theorem C3_fact_deriver_witness : find_next_and_upcoming [] now0 = (none, []) :=
  (C3_fact_deriver [] now0).2.1 rfl

/-- C6 (amended): processing a team sequence is the concatenation of each
team's own publications, so one target's failure cannot affect another; and
every target carrying a URL publishes exactly one status sensor, whose state
is success or an error string.  (A target without a URL is skipped and
publishes nothing, which corrects the original every-target wording.) -/
theorem C6_per_target_isolation :
    ∀ (pfx : String) (now : DateTime)
      (oracle : String → Except String (List CalRow × List StandRow))
      (ts us : List Team) (t : Team),
    processTeams pfx now oracle (ts ++ t :: us)
      = processTeams pfx now oracle ts ++ processTeam pfx now oracle t
          ++ processTeams pfx now oracle us
    ∧ (t.url ≠ "" → ∃ s : String,
        (processTeam pfx now oracle t).filter (fun q => decide (q.kind = PubKind.status))
          = [⟨PubKind.status, pfx ++ "_" ++ slugify (team_name t) ++ "_status", s⟩]
        ∧ (s = "success" ∨ ∃ e : String, s = "error: " ++ e)) := by
  intro pfx now oracle ts us t
  constructor
  · rw [processTeams_append]
    simp [processTeams, List.append_assoc]
  · intro hu
    cases h : oracle t.url with
    | error e =>
      refine ⟨"error: " ++ e, ?_, Or.inr ⟨e, rfl⟩⟩
      simp [processTeam, if_neg hu, h, filter_status_mkPubs]
    | ok p =>
      obtain ⟨rows, st⟩ := p
      by_cases hr : rows.isEmpty
      · refine ⟨"error: calendrier vide", ?_, Or.inr ⟨"calendrier vide", rfl⟩⟩
        simp [processTeam, if_neg hu, h, hr, filter_status_mkPubs]
      · refine ⟨"success", ?_, Or.inl rfl⟩
        simp [processTeam, if_neg hu, h, hr, filter_status_mkPubs]

/-- C6 witness: a one-team run with a failing fetch still yields exactly one
status publication for that team, carrying an error string. -/
theorem C6_per_target_isolation_witness :
    processTeams "rseq" now0 failOracle ([] ++ Team.mk "x" "u" :: [])
      = processTeams "rseq" now0 failOracle []
          ++ processTeam "rseq" now0 failOracle (Team.mk "x" "u")
          ++ processTeams "rseq" now0 failOracle []
    ∧ ∃ s : String,
        (processTeam "rseq" now0 failOracle (Team.mk "x" "u")).filter
            (fun q => decide (q.kind = PubKind.status))
          = [⟨PubKind.status,
              "rseq" ++ "_" ++ slugify (team_name (Team.mk "x" "u")) ++ "_status", s⟩]
        ∧ (s = "success" ∨ ∃ e : String, s = "error: " ++ e) :=
  ⟨(C6_per_target_isolation "rseq" now0 failOracle [] [] (Team.mk "x" "u")).1,
   (C6_per_target_isolation "rseq" now0 failOracle [] [] (Team.mk "x" "u")).2 (by decide)⟩

/-- C6 counterexample: a configured target without a URL is skipped outright:
the run publishes nothing for it, in particular no status publication,
against the claim that every target always yields one. -/
theorem C6_counterexample : processTeams "rseq" now0 failOracle [noUrlTeam] = [] := rfl

theorem unp_pos_key {e : StandRow} (h : unpB e = true) : pos_key e = 999999 := by
  unfold unpB at h
  unfold pos_key
  cases hp : pos_int e with
  | none => rfl
  | some n => rw [hp] at h; simp [Option.isNone] at h

theorem filter_orderedInsert_not (a : StandRow) (l : List StandRow) (ha : unpB a = false) :
    (List.orderedInsert stand_le a l).filter unpB = l.filter unpB := by
  induction l with
  | nil => simp [List.orderedInsert, List.filter, ha]
  | cons b t ih =>
    by_cases hr : stand_le a b
    · rw [List.orderedInsert_of_le _ _ hr]
      simp [List.filter_cons, ha]
    · simp only [List.orderedInsert, if_neg hr, List.filter_cons, ih]

theorem filter_orderedInsert_unp (a : StandRow) (l : List StandRow) (ha : unpB a = true)
    (hl : ∀ y ∈ l, unpB y = true → stand_le a y) :
    (List.orderedInsert stand_le a l).filter unpB = a :: l.filter unpB := by
  induction l with
  | nil => simp [List.orderedInsert, List.filter, ha]
  | cons b t ih =>
    by_cases hr : stand_le a b
    · rw [List.orderedInsert_of_le _ _ hr]
      simp [List.filter_cons, ha]
    · have hb : unpB b = false := by
        cases hb2 : unpB b
        · rfl
        · exact absurd (hl b (List.mem_cons_self b t) hb2) hr
      simp only [List.orderedInsert, if_neg hr, List.filter_cons, hb, cond_false,
        ih (fun y hy hyu => hl y (List.mem_cons_of_mem _ hy) hyu)]
      simp [hb]

theorem filter_insertionSort_unp (l : List StandRow) :
    (List.insertionSort stand_le l).filter unpB = l.filter unpB := by
  induction l with
  | nil => rfl
  | cons a t ih =>
    show (List.orderedInsert stand_le a (List.insertionSort stand_le t)).filter unpB = _
    cases ha : unpB a
    · rw [filter_orderedInsert_not a _ ha, ih]
      simp [List.filter_cons, ha]
    · have hl : ∀ y ∈ List.insertionSort stand_le t, unpB y = true → stand_le a y := by
        intro y _ hyu
        unfold stand_le
        rw [unp_pos_key ha, unp_pos_key hyu]
      rw [filter_orderedInsert_unp a _ ha hl, ih]
      simp [List.filter_cons, ha]

theorem extract_standings_eq (p : Page) :
    extract_standings_rows p = List.insertionSort stand_le (rawStandingsEntries p) := by
  unfold extract_standings_rows rawStandingsEntries
  cases hf : findTable p "standingsTable" <;> simp [hf, List.insertionSort]

/-- C4 (amended): the standings output is sorted ascending by pos_key; rows
with an unparsable position keep their relative input order; and provided
every parsable position is below the sentinel 999999, no row with a valid
position appears after an unparsable one, that is, the unparsable rows form
a suffix.  (The amendment is forced because a valid position at or above
999999 collides with the sentinel, see the counterexample.) -/
theorem C4_standings_order : ∀ p : Page,
    List.Sorted stand_le (extract_standings_rows p)
    ∧ (extract_standings_rows p).filter unpB = (rawStandingsEntries p).filter unpB
    ∧ ((∀ e ∈ rawStandingsEntries p, (pos_int e).getD 0 < 999999) →
        ∀ (i j : Nat) (hi : i < (extract_standings_rows p).length)
          (hj : j < (extract_standings_rows p).length), i < j →
          unpB ((extract_standings_rows p).get ⟨i, hi⟩) = true →
          unpB ((extract_standings_rows p).get ⟨j, hj⟩) = true) := by
  intro p
  have hs : List.Sorted stand_le (extract_standings_rows p) := by
    rw [extract_standings_eq]
    exact List.sorted_insertionSort stand_le _
  refine ⟨hs, ?_, ?_⟩
  · rw [extract_standings_eq]
    exact filter_insertionSort_unp _
  · intro hvalid i j hi hj hij hui
    have hle : stand_le ((extract_standings_rows p).get ⟨i, hi⟩)
        ((extract_standings_rows p).get ⟨j, hj⟩) :=
      hs.rel_get_of_lt (Fin.mk_lt_mk.mpr hij)
    cases hu2 : unpB ((extract_standings_rows p).get ⟨j, hj⟩)
    · exfalso
      set x := (extract_standings_rows p).get ⟨j, hj⟩ with hxdef
      have hxm : x ∈ extract_standings_rows p := List.get_mem _ _ _
      rw [extract_standings_eq] at hxm
      have hraw : x ∈ rawStandingsEntries p := (List.mem_insertionSort stand_le).mp hxm
      have hv := hvalid x hraw
      unfold unpB at hu2
      cases hp : pos_int x with
      | none => rw [hp] at hu2; simp [Option.isNone] at hu2
      | some n =>
        have hkey : pos_key x = n := by unfold pos_key; rw [hp]
        rw [hp] at hv
        unfold stand_le at hle
        rw [unp_pos_key hui, hkey] at hle
        simp only [Option.getD] at hv
        omega
    · rfl

/-- C4 witness: on a page with one valid and two unparsable positions, the
amended suffix property holds at the concrete indices one and two. -/
theorem C4_standings_order_witness :
    unpB ((extract_standings_rows c4wPage).get ⟨2, by decide⟩) = true :=
  (C4_standings_order c4wPage).2.2 (by decide) 1 2 (by decide) (by decide) (by decide)
    (by decide)

/-- C4 counterexample: a valid position equal to the sentinel 999999 ties with
an unparsable row, and the stable sort then leaves the unparsable row before
the valid one: unparsable rows do not sort after all valid rows. -/
theorem C4_counterexample :
    extract_standings_rows c4cxPage = [entUnpC, entSentA]
    ∧ unpB entUnpC = true ∧ pos_int entSentA = some 999999 :=
  ⟨rfl, rfl, rfl⟩

/-- C10: the at helper is null for an absent or out-of-range index, never an
indexing fault, and every field of a mapped standings entry goes through it. -/
theorem C10_index_safety : ∀ (i : Option Nat) (tds : List String),
    ((∀ j : Nat, i = some j → tds.length ≤ j) → atCell i tds = none)
    ∧ (∀ ix : StandIdx,
        (mkEntry ix tds).pos = atCell ix.pos tds
        ∧ (mkEntry ix tds).team = atCell ix.team tds
        ∧ (mkEntry ix tds).MJ = atCell ix.mj tds
        ∧ (mkEntry ix tds).V = atCell ix.v tds
        ∧ (mkEntry ix tds).D = atCell ix.d tds
        ∧ (mkEntry ix tds).N = atCell ix.n tds
        ∧ (mkEntry ix tds).PP = atCell ix.pp tds
        ∧ (mkEntry ix tds).PC = atCell ix.pc tds
        ∧ (mkEntry ix tds).MOY = atCell ix.moy tds
        ∧ (mkEntry ix tds).PES = atCell ix.pes tds
        ∧ (mkEntry ix tds).PTS = atCell ix.pts tds) := by
  intro i tds
  constructor
  · intro h
    cases i with
    | none => rfl
    | some j =>
      have hj : ¬ j < tds.length := Nat.not_lt.mpr (h j rfl)
      simp [atCell, hj]
  · intro ix
    exact ⟨rfl, rfl, rfl, rfl, rfl, rfl, rfl, rfl, rfl, rfl, rfl⟩

/-- C10 witness: index five against a one-cell row yields null. -/
theorem C10_index_safety_witness : atCell (some 5) ["a"] = none :=
  (C10_index_safety (some 5) ["a"]).1 (fun j hj => by cases hj; decide)

theorem asciiLower_alnum (c : Char) (h : isAlnumB c = true) :
    isLowerSlugB (asciiLower c) = true := by
  unfold asciiLower
  by_cases hu : 65 ≤ c.toNat ∧ c.toNat ≤ 90
  · rw [if_pos hu]
    obtain ⟨h1, h2⟩ := hu
    generalize hn : c.toNat = n at h1 h2 ⊢
    interval_cases n <;> decide
  · rw [if_neg hu]
    unfold isLowerSlugB isAlnumB at *
    simp only [decide_eq_true_eq] at *
    omega

theorem asciiLower_under (c : Char) (h : isUnderB (asciiLower c) = true) :
    isUnderB c = true := by
  unfold asciiLower at h
  by_cases hu : 65 ≤ c.toNat ∧ c.toNat ≤ 90
  · exfalso
    rw [if_pos hu] at h
    obtain ⟨h1, h2⟩ := hu
    generalize hn : c.toNat = n at h1 h2 h
    interval_cases n <;> exact absurd h (by decide)
  · rwa [if_neg hu] at h

theorem collapseRuns_mem (l : List Char) : ∀ (b : Bool) (c : Char),
    c ∈ collapseRuns b l → isAlnumB c = true ∨ c = '_' := by
  induction l with
  | nil => intro b c hc; simp [collapseRuns] at hc
  | cons x t ih =>
    intro b c hc
    by_cases hx : isAlnumB x
    · simp only [collapseRuns, if_pos hx] at hc
      rcases List.mem_cons.mp hc with h | h
      · exact Or.inl (h ▸ hx)
      · exact ih false c h
    · cases b with
      | true =>
        simp only [collapseRuns, if_neg hx, if_pos] at hc
        exact ih true c hc
      | false =>
        simp only [collapseRuns, if_neg hx, Bool.false_eq_true, if_neg, if_false] at hc
        rcases List.mem_cons.mp hc with h | h
        · exact Or.inr h
        · exact ih true c h

theorem head?_dropWhile_false (p : Char → Bool) (l : List Char) (a : Char)
    (h : (l.dropWhile p).head? = some a) : p a = false := by
  induction l with
  | nil => simp [List.dropWhile] at h
  | cons x t ih =>
    by_cases hx : p x
    · simp only [List.dropWhile, hx] at h
      exact ih h
    · simp only [List.dropWhile, hx] at h
      simp only [List.head?_cons, Option.some.injEq] at h
      rw [← h]
      cases hpx : p x
      · rfl
      · exact absurd hpx hx

theorem stripUnder_head (l : List Char) (a : Char) (h : (stripUnder l).head? = some a) :
    isUnderB a = false := by
  unfold stripUnder at h
  rw [List.head?_reverse] at h
  have hne : (l.dropWhile isUnderB).reverse.dropWhile isUnderB ≠ [] := by
    intro h0
    rw [h0] at h
    simp at h
  obtain ⟨pre, hpre⟩ := List.dropWhile_suffix (l := (l.dropWhile isUnderB).reverse) isUnderB
  have hlast : (l.dropWhile isUnderB).reverse.getLast? = some a := by
    rw [← hpre, List.getLast?_append_of_ne_nil _ hne]
    exact h
  rw [List.getLast?_reverse] at hlast
  exact head?_dropWhile_false isUnderB l a hlast

theorem stripUnder_last (l : List Char) (a : Char) (h : (stripUnder l).getLast? = some a) :
    isUnderB a = false := by
  unfold stripUnder at h
  rw [List.getLast?_reverse] at h
  exact head?_dropWhile_false isUnderB _ a h

theorem stripUnder_mem (l : List Char) (c : Char) (h : c ∈ stripUnder l) : c ∈ l := by
  unfold stripUnder at h
  rw [List.mem_reverse] at h
  have h1 := (List.dropWhile_sublist isUnderB).subset h
  rw [List.mem_reverse] at h1
  exact (List.dropWhile_sublist isUnderB).subset h1

theorem slugify_core_mem (name : String) (c : Char)
    (hc : c ∈ (slugify_core name).data) : isLowerSlugB c = true := by
  have hc' : c ∈ (stripUnder (collapseRuns false (asciiOnly name.data))).map asciiLower := hc
  obtain ⟨b, hb, rfl⟩ := List.mem_map.mp hc'
  have hbc : b ∈ collapseRuns false (asciiOnly name.data) := stripUnder_mem _ _ hb
  rcases collapseRuns_mem _ false b hbc with h | h
  · exact asciiLower_alnum b h
  · subst h
    decide

/-- C9: every slug is non-empty, made only of lowercase ASCII letters, digits
and underscores, carries no leading or trailing underscore, and an input that
reduces to nothing yields the fixed fallback rseq. -/
theorem C9_slugify : ∀ name : String,
    slugify name ≠ ""
    ∧ (∀ c ∈ (slugify name).data, isLowerSlugB c = true)
    ∧ (slugify name).data.head? ≠ some '_'
    ∧ (slugify name).data.getLast? ≠ some '_'
    ∧ (slugify_core name = "" → slugify name = "rseq") := by
  intro name
  by_cases h0 : slugify_core name = ""
  · have hs : slugify name = "rseq" := by unfold slugify; rw [if_pos h0]
    rw [hs]
    exact ⟨by decide, by decide, by decide, by decide, fun _ => rfl⟩
  · have hs : slugify name = slugify_core name := by unfold slugify; rw [if_neg h0]
    rw [hs]
    refine ⟨h0, fun c hc => slugify_core_mem name c hc, ?_, ?_, fun h => absurd h h0⟩
    · intro hh
      have hh' : ((stripUnder (collapseRuns false (asciiOnly name.data))).map
          asciiLower).head? = some '_' := hh
      rw [List.head?_map] at hh'
      cases hb : (stripUnder (collapseRuns false (asciiOnly name.data))).head? with
      | none => rw [hb] at hh'; simp at hh'
      | some b =>
        rw [hb] at hh'
        simp only [Option.map_some', Option.some.injEq] at hh'
        have hbu : isUnderB b = false := stripUnder_head _ _ hb
        have hlu : isUnderB (asciiLower b) = true := by rw [hh']; decide
        rw [asciiLower_under b hlu] at hbu
        exact absurd hbu (by decide)
    · intro hh
      have hh' : ((stripUnder (collapseRuns false (asciiOnly name.data))).map
          asciiLower).getLast? = some '_' := hh
      rw [List.getLast?_map] at hh'
      cases hb : (stripUnder (collapseRuns false (asciiOnly name.data))).getLast? with
      | none => rw [hb] at hh'; simp at hh'
      | some b =>
        rw [hb] at hh'
        simp only [Option.map_some', Option.some.injEq] at hh'
        have hbu : isUnderB b = false := stripUnder_last _ _ hb
        have hlu : isUnderB (asciiLower b) = true := by rw [hh']; decide
        rw [asciiLower_under b hlu] at hbu
        exact absurd hbu (by decide)

/-- C9 witness: an all-punctuation name falls back to rseq, and a concrete
character of a concrete slug is in the allowed alphabet. -/
theorem C9_slugify_witness :
    slugify "---" = "rseq" ∧ isLowerSlugB 'r' = true :=
  ⟨(C9_slugify "---").2.2.2.2 rfl, (C9_slugify "Royal").2.1 'r' (by decide)⟩
